import Mathlib

/-!
Verification of the task admission / cancellation / callback subsystem of an
xxl-job executor agent (Go).  The executor keeps two keyed tables of `Task`
records: a registry of handler templates (`regList`) and the table of
currently-running tasks (`runList`).  Go stores `*Task` pointers in these
tables, so the embedding uses an explicit heap: tables map string keys to
`TaskRef`s (natural numbers) and a heap maps each `TaskRef` to the current
`Task` record.  Every HTTP handler runs under one coarse mutex
(`e.mu.Lock()` held for the whole handler body), so each handler is embedded
as a single atomic transition on the executor state.  `runTask` additionally
returns the ordered list of running-table mutation events it performed, so
that ordering properties (conflict resolution before admission) are
expressible.
-/

namespace Xxl

/-- Modelled from the spec (constants file absent from the sources): the
body-embedded domain success code. -/
def SuccessCode : Int := 200

/-- Modelled from the spec (constants file absent from the sources): the
body-embedded domain failure code. -/
def FailureCode : Int := 500

/-- Modelled from the spec (constants file absent from the sources): the
distinguished blocking-strategy string compared against
`param.ExecutorBlockStrategy` in `runTask`. -/
def coverEarly : String := "COVER_EARLY"

/-- Modelled from the spec (utility file absent from the sources):
`Int64ToStr` renders an int64 job id as its decimal string, used as the
running-table key. -/
def Int64ToStr (i : Int) : String := toString i

/-- Lower-case an ASCII string, embedding `strings.ToLower` on the ASCII
fragment relevant to the failure markers. -/
def strToLower (s : String) : String := ⟨s.toList.map Char.toLower⟩

/-- Helper of `strContains`: the needle is a leading segment of the hay. -/
def leadSeg : List Char → List Char → Bool
  | [], _ => true
  | _ :: _, [] => false
  | c :: cs, d :: ds => c == d && leadSeg cs ds

/-- Helper of `strContains`: the needle occurs somewhere in the hay. -/
def findSub (needle : List Char) : List Char → Bool
  | [] => leadSeg needle []
  | d :: ds => leadSeg needle (d :: ds) || findSub needle ds

/-- Embedding of `strings.Contains hay needle`. -/
def strContains (hay needle : String) : Bool := findSub needle.toList hay.toList

/-! ### The keyed table (`taskList`)

Modelled from the spec (the `taskList` file is absent from the sources):
a concurrency-safe map with `Exists`, `Get`, `Set` (overwrite) and `Del`
(idempotent); embedded as an association list with unique-key discipline
maintained by `tlSet`/`tlDel`. -/

/-- Table lookup, embedding `taskList.Get` (`nil` becomes `none`). -/
def tlGet {κ α : Type} [BEq κ] : List (κ × α) → κ → Option α
  | [], _ => none
  | p :: ps, k => if p.1 == k then some p.2 else tlGet ps k

/-- Table membership, embedding `taskList.Exists`. -/
def tlExists {κ α : Type} [BEq κ] (l : List (κ × α)) (k : κ) : Bool :=
  (tlGet l k).isSome

/-- Table write with overwrite semantics, embedding `taskList.Set`. -/
def tlSet {κ α : Type} [BEq κ] : List (κ × α) → κ → α → List (κ × α)
  | [], k, v => [(k, v)]
  | p :: ps, k, v => if p.1 == k then (k, v) :: ps else p :: tlSet ps k v

/-- Table deletion (no-op when absent), embedding `taskList.Del`. -/
def tlDel {κ α : Type} [BEq κ] : List (κ × α) → κ → List (κ × α)
  | [], _ => []
  | p :: ps, k => if p.1 == k then tlDel ps k else p :: tlDel ps k

/-- Number of entries of the table holding key `k`. -/
def countKey {κ α : Type} [BEq κ] : List (κ × α) → κ → Nat
  | [], _ => 0
  | p :: ps, k => (if p.1 == k then 1 else 0) + countKey ps k

/-! ### Requests, tasks, executor state -/

/-- The `/run` request body (field names from the spec's interface table; the
struct declaration file is absent from the sources, the fields are exactly
those `runTask` reads). -/
structure RunReq where
  jobID : Int
  executorHandler : String
  executorParams : String
  executorBlockStrategy : String
  executorTimeout : Int
deriving DecidableEq, Repr

/-- The `/kill` request body: just the job id. -/
structure KillReq where
  jobID : Int
deriving DecidableEq, Repr

/-- The `/idleBeat` request body: just the job id. -/
structure IdleBeatReq where
  jobID : Int
deriving DecidableEq, Repr

/-- A heap cell for one Go `*Task` object.  `cancel` is the currently bound
cancellation capability (a fresh capability id is allocated each time
`context.WithCancel` / `WithTimeout` is run); `hasTimeout` records whether
the bound context carries a deadline; `fn` is the identity of the registered
work function; `param` is `nil` (`none`) until first admission. -/
structure Task where
  id : Int
  name : String
  param : Option RunReq
  cancel : Option Nat
  hasTimeout : Bool
  fn : Nat
deriving DecidableEq, Repr

/-- The zero-valued `Task{}` record. -/
def tZero : Task :=
  { id := 0, name := "", param := none, cancel := none, hasTimeout := false, fn := 0 }

/-- A reference (Go pointer) to a heap-allocated `Task`. -/
abbrev TaskRef := Nat

/-- Heap read through a reference.  In Go the dereference of a table-held
pointer always succeeds; the default is never reached on well-formed states. -/
def heapGetD (h : List (TaskRef × Task)) (r : TaskRef) : Task :=
  (tlGet h r).getD tZero

/-- The executor's mutable state: the two tables, the task heap, allocation
counters for references and cancellation capabilities, and the ordered list
of cancellation capabilities that have been invoked so far. -/
structure ExecState where
  regList : List (String × TaskRef)
  runList : List (String × TaskRef)
  heap : List (TaskRef × Task)
  nextRef : Nat
  nextCancel : Nat
  cancelled : List Nat
deriving DecidableEq, Repr

/-- The empty executor state (fresh `Init`). -/
def s0 : ExecState :=
  { regList := [], runList := [], heap := [], nextRef := 0, nextCancel := 0,
    cancelled := [] }

/-- A handler response: the body-embedded domain code and message
(`returnCall` / `returnGeneral` / `returnKill` / `returnIdleBeat` bodies,
modelled from the spec as the code/msg pair they embed). -/
structure Resp where
  code : Int
  msg : String
deriving DecidableEq, Repr

/-- Embedding of `returnGeneral()`: the success response. -/
def returnGeneral : Resp := { code := SuccessCode, msg := "" }

/-- Embedding of `returnCall(param, code, msg)` restricted to its observable
code/msg pair. -/
def returnCall (code : Int) (msg : String) : Resp := { code := code, msg := msg }

/-- Embedding of `returnKill(param, code)` restricted to its observable code. -/
def returnKill (code : Int) : Resp := { code := code, msg := "" }

/-- Embedding of `returnIdleBeat(code)` restricted to its observable code. -/
def returnIdleBeat (code : Int) : Resp := { code := code, msg := "" }

/-- Mutation/cancellation events of `runTask` on the running table, in
program order. -/
inductive RunEvent where
  | cancel (c : Nat)
  | del (k : String)
  | set (k : String)
deriving DecidableEq, Repr

/-! ### Executor operations -/

/-- Embedding of `executor.RegTask(pattern, task)`: allocate a fresh
`&Task{fn: task}` and store the pointer in the registry table. -/
def RegTask (s : ExecState) (pattern : String) (fn : Nat) : ExecState :=
  let r := s.nextRef
  { s with
    heap := tlSet s.heap r { tZero with fn := fn }
    nextRef := r + 1
    regList := tlSet s.regList pattern r }

/-- The admission tail of `runTask` (source lines 158-180): fetch the
registered template pointer, bind a fresh context/cancellation (with a
deadline iff `ExecutorTimeout > 0`), assign id/name/param in place on the
referenced object, and store the same pointer in the running table under
`Int64ToStr(task.Id)`.  Returns the success response. -/
def admitTask (s : ExecState) (param : RunReq) (tref : TaskRef)
    (evs : List RunEvent) : ExecState × Resp × List RunEvent :=
  let c := s.nextCancel
  let t0 := heapGetD s.heap tref
  let t : Task :=
    { t0 with
      hasTimeout := decide (param.executorTimeout > 0)
      cancel := some c
      id := param.jobID
      name := param.executorHandler
      param := some param }
  ({ s with
      heap := tlSet s.heap tref t
      nextCancel := c + 1
      runList := tlSet s.runList (Int64ToStr param.jobID) tref },
   returnGeneral,
   evs ++ [RunEvent.set (Int64ToStr param.jobID)])

/-- Embedding of `executor.runTask` (the whole handler body runs under
`e.mu.Lock()`, hence one atomic transition).  `body = none` is a JSON parse
failure.  The registry lookup is performed once up front: the source checks
`regList.Exists` at line 137 and re-reads the same unchanged table with
`regList.Get` at line 159 (`Exists` is exactly `Get`-is-non-nil).  In the
`coverEarly` branch the source cancels the old task's currently bound
capability and deletes the key derived from the old task's `Id` field
(line 149: `e.runList.Del(Int64ToStr(oldTask.Id))`). -/
def runTask (s : ExecState) (body : Option RunReq) :
    ExecState × Resp × List RunEvent :=
  match body with
  | none => (s, returnCall FailureCode ("params err"), [])
  | some param =>
    match tlGet s.regList param.executorHandler with
    | none => (s, returnCall FailureCode ("Task not registered"), [])
    | some tref =>
      if tlExists s.runList (Int64ToStr param.jobID) then
        if param.executorBlockStrategy == coverEarly then
          match tlGet s.runList (Int64ToStr param.jobID) with
          | some r =>
            let oldT := heapGetD s.heap r
            let s1 :=
              { s with
                cancelled := s.cancelled ++ oldT.cancel.toList
                runList := tlDel s.runList (Int64ToStr oldT.id) }
            admitTask s1 param tref
              (oldT.cancel.toList.map RunEvent.cancel
                ++ [RunEvent.del (Int64ToStr oldT.id)])
          | none => admitTask s param tref []
        else
          (s, returnCall FailureCode ("There are tasks running"), [])
      else
        admitTask s param tref []

/-- Embedding of `executor.killTask` (atomic under `e.mu.Lock()`).  The JSON
parse error is discarded (`_ = json.Unmarshal`), so a malformed body leaves
the zero-valued `killReq` (job id `0`).  Deletion is keyed by the request's
job id (line 197). -/
def killTask (s : ExecState) (body : Option KillReq) : ExecState × Resp :=
  let param : KillReq := body.getD { jobID := 0 }
  match tlGet s.runList (Int64ToStr param.jobID) with
  | none => (s, returnKill FailureCode)
  | some r =>
    let t := heapGetD s.heap r
    ({ s with
        cancelled := s.cancelled ++ t.cancel.toList
        runList := tlDel s.runList (Int64ToStr param.jobID) },
     returnGeneral)

/-- Embedding of `executor.idleBeat` (atomic under `e.mu.Lock()`): parse
failure and a running job id both answer the failure code; otherwise
success.  No path mutates any state. -/
def idleBeat (s : ExecState) (body : Option IdleBeatReq) : ExecState × Resp :=
  match body with
  | none => (s, returnIdleBeat FailureCode)
  | some param =>
    if tlExists s.runList (Int64ToStr param.jobID) then
      (s, returnIdleBeat FailureCode)
    else
      (s, returnGeneral)

/-! ### Callback path -/

/-- Outcome of the `POST /api/callback` interaction: transport error from
`client.Do`, error while reading the response body, or a fully read body. -/
inductive PostOutcome where
  | postErr (e : String)
  | readErr (e : String)
  | ok (body : String)
deriving DecidableEq, Repr

/-- One posted callback record `{jobId, code, msg}` (constructed from
`returnCall(task.Param, code, msg)`). -/
structure CallbackPost where
  jobId : Int
  code : Int
  msg : String
deriving DecidableEq, Repr

/-- The alert message built when the callback POST transport fails
(source line 331). -/
def callbackFailAlertMsg (t : Task) (errMsg : String) : String :=
  "task callback failed alert\ntaskID: " ++ toString t.id
    ++ "\ntask name: " ++ t.name
    ++ "\ntask params: " ++ ((t.param.map (fun p => p.executorParams)).getD (""))
    ++ "\nfailed reason: " ++ errMsg

/-- The alert message built when the outcome message matches a failure
marker (source line 345). -/
def execFailAlertMsg (t : Task) (msg : String) : String :=
  "task execution failed alert\ntaskID: " ++ toString t.id
    ++ "\ntask name: " ++ t.name
    ++ "\ntask params: " ++ ((t.param.map (fun p => p.executorParams)).getD (""))
    ++ "\nfailed reason: " ++ msg

/-- True when the outcome message text matches a failure marker: the
lower-cased message contains `fail` or `error` (source lines 343-344). -/
def msgHasFailureMarker (msg : String) : Bool :=
  strContains (strToLower msg) ("fail") || strContains (strToLower msg) ("error")

/-- Embedding of `executor.callback(task, code, msg)` under a given network
outcome.  Returns the new state, the list of callback records posted (one
single attempt on every path — no retry), and the list of alert messages
sent.  The running-table deletion (line 328, keyed by `task.Id`) happens
before the POST, hence unconditionally.  On transport error: one
callback-failure alert, then return.  On a body read error: return with no
alert.  Otherwise: the execution-failure alert exactly when the message
matches a failure marker. -/
def callback (s : ExecState) (t : Task) (code : Int) (msg : String)
    (outcome : PostOutcome) : ExecState × List CallbackPost × List String :=
  let s1 := { s with runList := tlDel s.runList (Int64ToStr t.id) }
  let posts : List CallbackPost :=
    [{ jobId := (t.param.map (fun p => p.jobID)).getD 0, code := code, msg := msg }]
  match outcome with
  | PostOutcome.postErr e => (s1, posts, [callbackFailAlertMsg t e])
  | PostOutcome.readErr _ => (s1, posts, [])
  | PostOutcome.ok _ =>
    if msgHasFailureMarker msg then
      (s1, posts, [execFailAlertMsg t msg])
    else
      (s1, posts, [])

/-! ### Concrete scenario states

One handler `h` registered, then jobs `1` and `2` admitted for it — the
executor state this produces exhibits the pointer aliasing of the source
(`regList.Get` hands out the template pointer which is then mutated in
place and stored in the running table). -/

/-- Run request: job 1, handler `h`, default (discard) strategy. -/
def req1 : RunReq :=
  { jobID := 1, executorHandler := "h", executorParams := "p1",
    executorBlockStrategy := "", executorTimeout := 0 }

/-- Run request: job 2, handler `h`, default (discard) strategy. -/
def req2 : RunReq :=
  { jobID := 2, executorHandler := "h", executorParams := "p2",
    executorBlockStrategy := "", executorTimeout := 0 }

/-- Run request: job 1, handler `h`, `coverEarly` strategy. -/
def req1c : RunReq :=
  { jobID := 1, executorHandler := "h", executorParams := "p1c",
    executorBlockStrategy := coverEarly, executorTimeout := 0 }

/-- State after registering handler `h` (template reference `0`). -/
def sReg : ExecState := RegTask s0 ("h") 7

/-- State after admitting job 1 for handler `h`. -/
def sRun1 : ExecState := (runTask sReg (some req1)).1

/-- State after additionally admitting job 2 for handler `h`: both running
entries and the registry template now hold the same reference `0`. -/
def sAlias : ExecState := (runTask sRun1 (some req2)).1

/-! ### Table lemmas -/

/-- Reading back a key just written yields the written value. -/
theorem tlGet_tlSet_self {κ α : Type} [BEq κ] [LawfulBEq κ]
    (l : List (κ × α)) (k : κ) (v : α) : tlGet (tlSet l k v) k = some v := by
  induction l with
  | nil => simp [tlSet, tlGet]
  | cons p ps ih =>
    by_cases h : (p.1 == k) = true
    · simp [tlSet, tlGet, h]
    · simp [tlSet, tlGet, h, ih]

/-- A deleted key is no longer found. -/
theorem tlGet_tlDel_self {κ α : Type} [BEq κ]
    (l : List (κ × α)) (k : κ) : tlGet (tlDel l k) k = none := by
  induction l with
  | nil => simp [tlDel, tlGet]
  | cons p ps ih =>
    by_cases h : (p.1 == k) = true
    · simp [tlDel, h, ih]
    · simp [tlDel, tlGet, h, ih]

/-- An absent key has zero entries. -/
theorem countKey_of_tlGet_none {κ α : Type} [BEq κ]
    (l : List (κ × α)) (k : κ) (h : tlGet l k = none) : countKey l k = 0 := by
  induction l with
  | nil => simp [countKey]
  | cons p ps ih =>
    by_cases hp : (p.1 == k) = true
    · simp [tlGet, hp] at h
    · simp [tlGet, hp] at h
      simp [countKey, hp, ih h]

/-- A present key has at least one entry. -/
theorem countKey_pos_of_tlGet_some {κ α : Type} [BEq κ]
    (l : List (κ × α)) (k : κ) (v : α) (h : tlGet l k = some v) :
    1 ≤ countKey l k := by
  induction l with
  | nil => simp [tlGet] at h
  | cons p ps ih =>
    by_cases hp : (p.1 == k) = true
    · simp [countKey, hp]
    · simp [tlGet, hp] at h
      simp [countKey, hp]
      exact ih h

/-- Deletion never increases the number of entries of any key. -/
theorem countKey_tlDel_le {κ α : Type} [BEq κ]
    (l : List (κ × α)) (k' k : κ) : countKey (tlDel l k') k ≤ countKey l k := by
  induction l with
  | nil => simp [tlDel]
  | cons p ps ih =>
    by_cases h : (p.1 == k') = true
    · simp [tlDel, h, countKey]
      omega
    · simp [tlDel, h, countKey]
      omega

/-- Deletion leaves zero entries of the deleted key. -/
theorem countKey_tlDel_self {κ α : Type} [BEq κ]
    (l : List (κ × α)) (k : κ) : countKey (tlDel l k) k = 0 := by
  induction l with
  | nil => simp [tlDel, countKey]
  | cons p ps ih =>
    by_cases h : (p.1 == k) = true
    · simp [tlDel, h, ih]
    · simp [tlDel, countKey, h, ih]

/-- Entry count after a write: unchanged when the key was present (overwrite),
one more at the written key when it was absent. -/
theorem countKey_tlSet_eq {κ α : Type} [BEq κ] [LawfulBEq κ]
    (l : List (κ × α)) (k k' : κ) (v : α) :
    countKey (tlSet l k v) k' =
      countKey l k'
        + (if tlExists l k = true then 0 else if (k == k') = true then 1 else 0) := by
  induction l with
  | nil => simp [tlSet, countKey, tlExists, tlGet]
  | cons p ps ih =>
    by_cases h : (p.1 == k) = true
    · have hpk : p.1 = k := eq_of_beq h
      simp [tlSet, countKey, tlExists, tlGet, h, hpk]
      rw [hpk]
    · simp [tlSet, countKey, tlExists, tlGet, h, ih]
      by_cases hex : (tlGet ps k).isSome = true
      · simp [tlExists, hex]
      · simp [tlExists, hex]
        omega

/-- A write preserves the at-most-one-entry-per-key discipline. -/
theorem countKey_tlSet_le_one {κ α : Type} [BEq κ] [LawfulBEq κ]
    (l : List (κ × α)) (k : κ) (v : α)
    (hInv : ∀ k0, countKey l k0 ≤ 1) (k0 : κ) :
    countKey (tlSet l k v) k0 ≤ 1 := by
  rw [countKey_tlSet_eq]
  by_cases hex : tlExists l k = true
  · simp [hex]
    exact hInv k0
  · simp [hex]
    by_cases hk : (k == k0) = true
    · have hkk : k = k0 := eq_of_beq hk
      have h0 : countKey l k0 = 0 := by
        apply countKey_of_tlGet_none
        subst hkk
        simp [tlExists] at hex
        exact hex
      simp [hk, h0]
    · simp [hk]
      exact hInv k0

/-- Deletion preserves the at-most-one-entry-per-key discipline. -/
theorem countKey_tlDel_le_one {κ α : Type} [BEq κ]
    (l : List (κ × α)) (k' : κ)
    (hInv : ∀ k0, countKey l k0 ≤ 1) (k0 : κ) :
    countKey (tlDel l k') k0 ≤ 1 :=
  le_trans (countKey_tlDel_le l k' k0) (hInv k0)

/-! ### Structural facts about the handlers -/

/-- `idleBeat` never mutates the executor state, on any path. -/
theorem idleBeat_fst (s : ExecState) (body : Option IdleBeatReq) :
    (idleBeat s body).1 = s := by
  cases body with
  | none => rfl
  | some param =>
    by_cases h : tlExists s.runList (Int64ToStr param.jobID) = true
    · simp [idleBeat, h]
    · simp [idleBeat, h]

/-- The running table after `runTask` is the old table, or the old table with
one key written, or the old table with one key deleted then one key written. -/
theorem runTask_fst_runList (s : ExecState) (body : Option RunReq) :
    (runTask s body).1.runList = s.runList
    ∨ (∃ k v, (runTask s body).1.runList = tlSet s.runList k v)
    ∨ (∃ k' k v, (runTask s body).1.runList = tlSet (tlDel s.runList k') k v) := by
  cases body with
  | none => left; rfl
  | some param =>
    simp only [runTask]
    cases hreg : tlGet s.regList param.executorHandler with
    | none => left; rfl
    | some tref =>
      by_cases hex : tlExists s.runList (Int64ToStr param.jobID) = true
      · simp only [hex, if_true]
        by_cases hstr : (param.executorBlockStrategy == coverEarly) = true
        · simp only [hstr, if_true]
          cases hget : tlGet s.runList (Int64ToStr param.jobID) with
          | none =>
            right; left
            exact ⟨_, _, rfl⟩
          | some r =>
            right; right
            exact ⟨_, _, _, rfl⟩
        · simp only [hstr]
          left; rfl
      · simp only [hex]
        right; left
        exact ⟨_, _, rfl⟩

/-- The running table after `killTask` is the old table or the old table with
the request's key deleted. -/
theorem killTask_fst_runList (s : ExecState) (body : Option KillReq) :
    (killTask s body).1.runList = s.runList
    ∨ (killTask s body).1.runList
        = tlDel s.runList (Int64ToStr (body.getD { jobID := 0 }).jobID) := by
  simp only [killTask]
  cases hget : tlGet s.runList (Int64ToStr (body.getD { jobID := 0 }).jobID) with
  | none => left; rfl
  | some r => right; rfl

/-! ### Claim theorems -/

/-- C4: on a run request for a job id already present in the running table
with any blockStrategy other than `coverEarly` (including the default discard
strategy), the handler returns the conflict failure response and the whole
executor state — in particular the running table — is left unchanged: no
cancellation, no removal, no insertion. -/
theorem c4_discard_conflict_rejects_without_mutation
    (s : ExecState) (param : RunReq) (tref : TaskRef)
    (hreg : tlGet s.regList param.executorHandler = some tref)
    (hrun : tlExists s.runList (Int64ToStr param.jobID) = true)
    (hstr : param.executorBlockStrategy ≠ coverEarly) :
    runTask s (some param)
      = (s, returnCall FailureCode ("There are tasks running"), []) := by
  have hb : (param.executorBlockStrategy == coverEarly) = false := by
    simp [hstr]
  simp [runTask, hreg, hrun, hb]

/-- Witness for C4: with handler `h` registered and job 1 running, a second
run request for job 1 under the default strategy is rejected and the state is
untouched. -/
theorem c4_discard_conflict_rejects_without_mutation_witness :
    tlGet sRun1.regList req1.executorHandler = some 0
    ∧ tlExists sRun1.runList (Int64ToStr req1.jobID) = true
    ∧ req1.executorBlockStrategy ≠ coverEarly
    ∧ runTask sRun1 (some req1)
        = (sRun1, returnCall FailureCode ("There are tasks running"), []) :=
  ⟨rfl, rfl, by decide,
   c4_discard_conflict_rejects_without_mutation sRun1 req1 0 rfl rfl (by decide)⟩

/-- C6: `idleBeat` answers the failure code exactly when the running table
contains the requested job id, the success code otherwise, and never mutates
the executor state on any path (including malformed bodies).  The handler
runs under the executor mutex, so the equivalence holds of the state
immediately before and after any interleaved run/kill transition. -/
theorem c6_idle_beat_failure_iff_running (s : ExecState) :
    (∀ body, (idleBeat s body).1 = s)
    ∧ ∀ req : IdleBeatReq,
        ((idleBeat s (some req)).2.code = FailureCode
          ↔ tlExists s.runList (Int64ToStr req.jobID) = true) := by
  refine ⟨idleBeat_fst s, ?_⟩
  intro req
  by_cases h : tlExists s.runList (Int64ToStr req.jobID) = true
  · simp [idleBeat, h, returnIdleBeat]
  · simp [idleBeat, h, returnGeneral, SuccessCode, FailureCode]

/-- Witness for C6: with job 1 running, `idleBeat` for job 1 answers the
failure code, and `idleBeat` leaves the state unchanged. -/
theorem c6_idle_beat_failure_iff_running_witness :
    (idleBeat sRun1 (some { jobID := 1 })).2.code = FailureCode
    ∧ (idleBeat sRun1 none).1 = sRun1 :=
  ⟨((c6_idle_beat_failure_iff_running sRun1).2 { jobID := 1 }).mpr rfl,
   (c6_idle_beat_failure_iff_running sRun1).1 none⟩

/-- C9: a run request with a malformed body, or one naming a handler absent
from the registry, is answered with a structured failure response and the
whole executor state — in particular the running table — is untouched. -/
theorem c9_malformed_or_unregistered_run_rejected (s : ExecState) :
    runTask s none = (s, returnCall FailureCode ("params err"), [])
    ∧ ∀ param : RunReq, tlGet s.regList param.executorHandler = none →
        runTask s (some param)
          = (s, returnCall FailureCode ("Task not registered"), []) := by
  refine ⟨rfl, ?_⟩
  intro param h
  simp [runTask, h]

/-- Witness for C9: on the empty executor state, a malformed run body and a
run for the unregistered handler `h` are both rejected without mutation. -/
theorem c9_malformed_or_unregistered_run_rejected_witness :
    runTask s0 none = (s0, returnCall FailureCode ("params err"), [])
    ∧ runTask s0 (some req1)
        = (s0, returnCall FailureCode ("Task not registered"), []) :=
  ⟨(c9_malformed_or_unregistered_run_rejected s0).1,
   (c9_malformed_or_unregistered_run_rejected s0).2 req1 rfl⟩

/-- C5: a kill request for an absent job id answers failure and leaves the
whole state unchanged; a kill for a present job id invokes the cancellation
capability currently bound to that entry's task, deletes the entry (exactly
one entry, under the unique-key discipline), and answers success. -/
theorem c5_kill_present_cancels_absent_fails (s : ExecState) (param : KillReq) :
    (tlGet s.runList (Int64ToStr param.jobID) = none →
       killTask s (some param) = (s, returnKill FailureCode))
    ∧ ∀ r, tlGet s.runList (Int64ToStr param.jobID) = some r →
        killTask s (some param)
          = ({ s with
                cancelled := s.cancelled ++ (heapGetD s.heap r).cancel.toList,
                runList := tlDel s.runList (Int64ToStr param.jobID) },
             returnGeneral)
        ∧ tlExists (killTask s (some param)).1.runList (Int64ToStr param.jobID)
            = false
        ∧ ((∀ k, countKey s.runList k ≤ 1) →
            countKey s.runList (Int64ToStr param.jobID) = 1
            ∧ countKey (killTask s (some param)).1.runList (Int64ToStr param.jobID)
                = 0) := by
  constructor
  · intro h
    simp [killTask, h]
  · intro r h
    refine ⟨by simp [killTask, h], ?_, ?_⟩
    · simp [killTask, h, tlExists, tlGet_tlDel_self]
    · intro hInv
      constructor
      · have h1 := countKey_pos_of_tlGet_some s.runList (Int64ToStr param.jobID) r h
        have h2 := hInv (Int64ToStr param.jobID)
        omega
      · simp [killTask, h, countKey_tlDel_self]

/-- Witness for C5: with job 1 running, killing job 5 fails without mutation
and killing job 1 cancels capability 0, empties the table, and succeeds. -/
theorem c5_kill_present_cancels_absent_fails_witness :
    killTask sRun1 (some { jobID := 5 }) = (sRun1, returnKill FailureCode)
    ∧ killTask sRun1 (some { jobID := 1 })
        = ({ sRun1 with
              cancelled := sRun1.cancelled ++ (heapGetD sRun1.heap 0).cancel.toList,
              runList := tlDel sRun1.runList (Int64ToStr 1) },
           returnGeneral)
    ∧ countKey sRun1.runList (Int64ToStr 1) = 1
    ∧ countKey (killTask sRun1 (some { jobID := 1 })).1.runList (Int64ToStr 1)
        = 0 :=
  ⟨(c5_kill_present_cancels_absent_fails sRun1 { jobID := 5 }).1 rfl,
   ((c5_kill_present_cancels_absent_fails sRun1 { jobID := 1 }).2 0 rfl).1,
   (((c5_kill_present_cancels_absent_fails sRun1 { jobID := 1 }).2 0 rfl).2.2
     (by intro k; simp [sRun1, countKey]; split <;> omega)).1,
   (((c5_kill_present_cancels_absent_fails sRun1 { jobID := 1 }).2 0 rfl).2.2
     (by intro k; simp [sRun1, countKey]; split <;> omega)).2⟩

/-- C10: `killTask` discards JSON parse errors, so a malformed body is
processed exactly as a kill for the zero-valued job id 0: failure without
mutation when 0 is not running, cancel-and-remove with success when it is. -/
theorem c10_malformed_kill_behaves_as_job_zero (s : ExecState) :
    killTask s none = killTask s (some { jobID := 0 })
    ∧ (tlGet s.runList (Int64ToStr 0) = none →
        killTask s none = (s, returnKill FailureCode))
    ∧ ∀ r, tlGet s.runList (Int64ToStr 0) = some r →
        killTask s none
          = ({ s with
                cancelled := s.cancelled ++ (heapGetD s.heap r).cancel.toList,
                runList := tlDel s.runList (Int64ToStr 0) },
             returnGeneral) := by
  refine ⟨rfl, ?_, ?_⟩
  · intro h
    simp [killTask, h]
  · intro r h
    simp [killTask, h]

/-- Run request: job 0, handler `h` (to witness the malformed-kill corner). -/
def req0 : RunReq :=
  { jobID := 0, executorHandler := "h", executorParams := "p0",
    executorBlockStrategy := "", executorTimeout := 0 }

/-- State after admitting job 0 for handler `h`. -/
def sRun0 : ExecState := (runTask sReg (some req0)).1

/-- Witness for C10: on the empty state, a malformed kill fails (job 0 not
running); with job 0 running, a malformed kill cancels and removes it. -/
theorem c10_malformed_kill_behaves_as_job_zero_witness :
    killTask s0 none = (s0, returnKill FailureCode)
    ∧ killTask sRun0 none
        = ({ sRun0 with
              cancelled := sRun0.cancelled ++ (heapGetD sRun0.heap 0).cancel.toList,
              runList := tlDel sRun0.runList (Int64ToStr 0) },
           returnGeneral) :=
  ⟨(c10_malformed_kill_behaves_as_job_zero s0).2.1 rfl,
   (c10_malformed_kill_behaves_as_job_zero sRun0).2.2 0 rfl⟩

/-- C8: on every terminal transition, `callback` deletes the task's entry
from the running table unconditionally — before the network outcome can
matter, hence also when the post fails — posts exactly one callback record
(no retry on any outcome), and on a transport failure sends the
callback-failure alert and returns normally (the failure is swallowed). -/
theorem c8_callback_deletes_first_posts_once (s : ExecState) (t : Task)
    (code : Int) (msg : String) :
    (∀ outcome, (callback s t code msg outcome).1
        = { s with runList := tlDel s.runList (Int64ToStr t.id) })
    ∧ (∀ outcome, (callback s t code msg outcome).2.1
        = [{ jobId := (t.param.map (fun p => p.jobID)).getD 0,
             code := code, msg := msg }])
    ∧ ∀ e, (callback s t code msg (PostOutcome.postErr e)).2.2
        = [callbackFailAlertMsg t e] := by
  refine ⟨?_, ?_, fun e => rfl⟩
  · intro outcome
    cases outcome with
    | postErr e => rfl
    | readErr e => rfl
    | ok b =>
      by_cases h : msgHasFailureMarker msg = true
      · simp [callback, h]
      · simp [callback, h]
  · intro outcome
    cases outcome with
    | postErr e => rfl
    | readErr e => rfl
    | ok b =>
      by_cases h : msgHasFailureMarker msg = true
      · simp [callback, h]
      · simp [callback, h]

/-- C7 counterexample: the outcome message `task failed` matches the failure
marker, yet when the callback POST's response body read fails at the network
layer no alert at all is sent; and when the POST transport itself fails, the
alert that is sent is the callback-failure alert, not the job-failure alert. -/
theorem c7_counterexample :
    msgHasFailureMarker ("task failed") = true
    ∧ (callback s0 tZero SuccessCode ("task failed")
        (PostOutcome.readErr ("read timeout"))).2.2 = []
    ∧ (callback s0 tZero SuccessCode ("task failed")
        (PostOutcome.postErr ("connection refused"))).2.2
        = [callbackFailAlertMsg tZero ("connection refused")]
    ∧ callbackFailAlertMsg tZero ("connection refused")
        ≠ execFailAlertMsg tZero ("task failed") := by
  refine ⟨rfl, rfl, rfl, by decide⟩

/-- C7 as amended: the job-failure (marker) alert is sent exactly when the
callback POST succeeds and its response body is read successfully; when the
POST transport fails only the callback-failure alert is sent, and when the
response body read fails no alert is sent. -/
theorem c7_amended_marker_alert_needs_transport_success
    (s : ExecState) (t : Task) (code : Int) (msg : String)
    (h : msgHasFailureMarker msg = true) :
    (∀ b, (callback s t code msg (PostOutcome.ok b)).2.2 = [execFailAlertMsg t msg])
    ∧ (∀ e, (callback s t code msg (PostOutcome.postErr e)).2.2
        = [callbackFailAlertMsg t e])
    ∧ ∀ e, (callback s t code msg (PostOutcome.readErr e)).2.2 = [] := by
  refine ⟨fun b => ?_, fun e => rfl, fun e => rfl⟩
  simp [callback, h]

/-- Witness for the amended C7 at the marker message `task failed`. -/
theorem c7_amended_marker_alert_needs_transport_success_witness :
    (callback s0 tZero SuccessCode ("task failed")
        (PostOutcome.ok ("resp"))).2.2 = [execFailAlertMsg tZero ("task failed")]
    ∧ (callback s0 tZero SuccessCode ("task failed")
        (PostOutcome.readErr ("e"))).2.2 = [] :=
  ⟨(c7_amended_marker_alert_needs_transport_success s0 tZero SuccessCode
      ("task failed") rfl).1 ("resp"),
   (c7_amended_marker_alert_needs_transport_success s0 tZero SuccessCode
      ("task failed") rfl).2.2 ("e")⟩

/-- C2 counterexample: after registering handler `h` and admitting jobs 1 and
2 for it, the running entries for job 1 and job 2 and the registry template
are one and the same reference (`0`), and that shared task carries job 2's
id, parameters and cancellation capability — so the Task stored at admission
is not a fresh independent copy and its fields alias the template's. -/
theorem c2_counterexample :
    tlGet sAlias.runList (Int64ToStr 1) = some 0
    ∧ tlGet sAlias.runList (Int64ToStr 2) = some 0
    ∧ tlGet sAlias.regList ("h") = some 0
    ∧ (heapGetD sAlias.heap 0).id = 2
    ∧ (heapGetD sAlias.heap 0).param = some req2
    ∧ (heapGetD sAlias.heap 0).cancel = some 1 :=
  ⟨rfl, rfl, rfl, rfl, rfl, rfl⟩

/-- C2 as amended: at admission the registered template object itself is
mutated in place — fresh parameters, a fresh cancellation capability, the
request's id and name are bound onto it — and the running-table entry stores
that same template reference, so all admissions naming one handler share one
Task instance whose fields reflect the most recent admission. -/
theorem c2_amended_admission_mutates_template_in_place
    (s : ExecState) (param : RunReq) (tref : TaskRef)
    (hreg : tlGet s.regList param.executorHandler = some tref)
    (habs : tlExists s.runList (Int64ToStr param.jobID) = false) :
    (runTask s (some param)).1.runList
        = tlSet s.runList (Int64ToStr param.jobID) tref
    ∧ heapGetD (runTask s (some param)).1.heap tref
        = { heapGetD s.heap tref with
            hasTimeout := decide (param.executorTimeout > 0)
            cancel := some s.nextCancel
            id := param.jobID
            name := param.executorHandler
            param := some param }
    ∧ (runTask s (some param)).1.nextCancel = s.nextCancel + 1
    ∧ (runTask s (some param)).2.1 = returnGeneral := by
  refine ⟨?_, ?_, ?_, ?_⟩ <;>
    simp [runTask, hreg, habs, admitTask, heapGetD, tlGet_tlSet_self]

/-- Witness for the amended C2: admitting job 1 for handler `h` stores the
template reference `0` and rebinds its fields in place. -/
theorem c2_amended_admission_mutates_template_in_place_witness :
    (runTask sReg (some req1)).1.runList
        = tlSet sReg.runList (Int64ToStr req1.jobID) 0
    ∧ heapGetD (runTask sReg (some req1)).1.heap 0
        = { heapGetD sReg.heap 0 with
            hasTimeout := decide (req1.executorTimeout > 0)
            cancel := some sReg.nextCancel
            id := req1.jobID
            name := req1.executorHandler
            param := some req1 }
    ∧ (runTask sReg (some req1)).1.nextCancel = sReg.nextCancel + 1
    ∧ (runTask sReg (some req1)).2.1 = returnGeneral :=
  c2_amended_admission_mutates_template_in_place sReg req1 0 rfl rfl

/-- C3 counterexample: from the aliased state (jobs 1 and 2 running for the
same handler), a `coverEarly` run request for job 1 never removes job 1's
entry — there is no deletion event for key `1` — but does delete job 2's
entry (the source deletes by the shared task's `Id` field), and the
cancellation capability that was bound at job 1's admission (capability `0`,
see `sRun1`) is never invoked: only capability `1` is. -/
theorem c3_counterexample :
    tlExists sAlias.runList (Int64ToStr 1) = true
    ∧ req1c.executorBlockStrategy = coverEarly
    ∧ req1c.jobID = 1
    ∧ (heapGetD sRun1.heap 0).cancel = some 0
    ∧ RunEvent.del (Int64ToStr 1) ∉ (runTask sAlias (some req1c)).2.2
    ∧ RunEvent.del (Int64ToStr 2) ∈ (runTask sAlias (some req1c)).2.2
    ∧ tlExists (runTask sAlias (some req1c)).1.runList (Int64ToStr 2) = false
    ∧ (runTask sAlias (some req1c)).1.cancelled = [1]
    ∧ (0 : Nat) ∉ (runTask sAlias (some req1c)).1.cancelled := by
  refine ⟨rfl, rfl, rfl, rfl, by decide, by decide, rfl, rfl, by decide⟩

/-- C3 as amended: provided the task stored under the requested job id's key
records that same job id (true whenever each handler is used by at most one
job id), a `coverEarly` run on an already-running id invokes the capability
currently bound to the stored task and deletes its entry before the new task
is admitted (the deletion and cancellation events precede the set event),
and the request returns success.  In general the source cancels the
capability currently bound to the (possibly shared) stored task object and
deletes the key derived from that object's `Id` field. -/
theorem c3_amended_cover_early_cancels_then_admits
    (s : ExecState) (param : RunReq) (tref r : TaskRef)
    (hreg : tlGet s.regList param.executorHandler = some tref)
    (hrun : tlGet s.runList (Int64ToStr param.jobID) = some r)
    (hid : (heapGetD s.heap r).id = param.jobID)
    (hstr : param.executorBlockStrategy = coverEarly) :
    (runTask s (some param)).2.2
      = (heapGetD s.heap r).cancel.toList.map RunEvent.cancel
          ++ [RunEvent.del (Int64ToStr param.jobID),
              RunEvent.set (Int64ToStr param.jobID)]
    ∧ (runTask s (some param)).1.cancelled
        = s.cancelled ++ (heapGetD s.heap r).cancel.toList
    ∧ (runTask s (some param)).1.runList
        = tlSet (tlDel s.runList (Int64ToStr param.jobID))
            (Int64ToStr param.jobID) tref
    ∧ (runTask s (some param)).2.1 = returnGeneral := by
  have hex : tlExists s.runList (Int64ToStr param.jobID) = true := by
    simp [tlExists, hrun]
  have hb : (param.executorBlockStrategy == coverEarly) = true := by
    simp [hstr]
  refine ⟨?_, ?_, ?_, ?_⟩ <;>
    simp [runTask, hreg, hex, hb, hrun, hid, admitTask]

/-- Witness for the amended C3: with only job 1 running for handler `h`
(stored task id 1), a `coverEarly` run for job 1 cancels, deletes, then
admits, and succeeds. -/
theorem c3_amended_cover_early_cancels_then_admits_witness :
    (runTask sRun1 (some req1c)).2.2
      = (heapGetD sRun1.heap 0).cancel.toList.map RunEvent.cancel
          ++ [RunEvent.del (Int64ToStr req1c.jobID),
              RunEvent.set (Int64ToStr req1c.jobID)]
    ∧ (runTask sRun1 (some req1c)).1.cancelled
        = sRun1.cancelled ++ (heapGetD sRun1.heap 0).cancel.toList
    ∧ (runTask sRun1 (some req1c)).1.runList
        = tlSet (tlDel sRun1.runList (Int64ToStr req1c.jobID))
            (Int64ToStr req1c.jobID) 0
    ∧ (runTask sRun1 (some req1c)).2.1 = returnGeneral :=
  c3_amended_cover_early_cancels_then_admits sRun1 req1c 0 0 rfl rfl rfl rfl

/-- C1: every handler transition preserves the at-most-one-entry-per-job-id
discipline of the running table (each handler body holds the executor mutex,
so concurrent requests are linearized into these atomic transitions); and on
a run request whose job id is already present, either the state is left
completely unchanged (reject) or the strategy is `coverEarly` and the
cancellation/deletion resolution events strictly precede the admission's set
event — no running-table mutation happens before the conflict is resolved. -/
theorem c1_at_most_one_running_entry_per_job_id (s : ExecState)
    (hInv : ∀ k, countKey s.runList k ≤ 1) :
    (∀ body k, countKey (runTask s body).1.runList k ≤ 1)
    ∧ (∀ body k, countKey (killTask s body).1.runList k ≤ 1)
    ∧ (∀ body k, countKey (idleBeat s body).1.runList k ≤ 1)
    ∧ ∀ param : RunReq, tlExists s.runList (Int64ToStr param.jobID) = true →
        (runTask s (some param)).1 = s
        ∨ (param.executorBlockStrategy = coverEarly
           ∧ ∃ r, tlGet s.runList (Int64ToStr param.jobID) = some r
             ∧ (runTask s (some param)).2.2
                 = (heapGetD s.heap r).cancel.toList.map RunEvent.cancel
                     ++ [RunEvent.del (Int64ToStr (heapGetD s.heap r).id),
                         RunEvent.set (Int64ToStr param.jobID)]) := by
  refine ⟨?_, ?_, ?_, ?_⟩
  · intro body k
    rcases runTask_fst_runList s body with h | ⟨k1, v, h⟩ | ⟨k', k1, v, h⟩
    · rw [h]; exact hInv k
    · rw [h]; exact countKey_tlSet_le_one _ k1 v hInv k
    · rw [h]
      exact countKey_tlSet_le_one _ k1 v (countKey_tlDel_le_one _ k' hInv) k
  · intro body k
    rcases killTask_fst_runList s body with h | h
    · rw [h]; exact hInv k
    · rw [h]; exact countKey_tlDel_le_one _ _ hInv k
  · intro body k
    rw [idleBeat_fst]
    exact hInv k
  · intro param hex
    cases hreg : tlGet s.regList param.executorHandler with
    | none =>
      left
      simp [runTask, hreg]
    | some tref =>
      by_cases hstr : (param.executorBlockStrategy == coverEarly) = true
      · right
        refine ⟨eq_of_beq hstr, ?_⟩
        have hsome : ∃ r, tlGet s.runList (Int64ToStr param.jobID) = some r := by
          have h' := hex
          simp [tlExists, Option.isSome_iff_exists] at h'
          exact h'
        obtain ⟨r, hr⟩ := hsome
        exact ⟨r, hr, by simp [runTask, hreg, hex, hstr, hr, admitTask]⟩
      · left
        simp [runTask, hreg, hex, hstr]

/-- Witness for C1: from the single-entry state with job 1 running, the
invariant holds after a further run request, and a conflicting discard-
strategy run for job 1 resolves without mutating the state. -/
theorem c1_at_most_one_running_entry_per_job_id_witness :
    (∀ k, countKey (runTask sRun1 (some req2)).1.runList k ≤ 1)
    ∧ ((runTask sRun1 (some req1)).1 = sRun1
        ∨ (req1.executorBlockStrategy = coverEarly
           ∧ ∃ r, tlGet sRun1.runList (Int64ToStr req1.jobID) = some r
             ∧ (runTask sRun1 (some req1)).2.2
                 = (heapGetD sRun1.heap r).cancel.toList.map RunEvent.cancel
                     ++ [RunEvent.del (Int64ToStr (heapGetD sRun1.heap r).id),
                         RunEvent.set (Int64ToStr req1.jobID)])) := by
  have hL : sRun1.runList = [(Int64ToStr 1, 0)] := by decide
  have hInv : ∀ k, countKey sRun1.runList k ≤ 1 := by
    intro k
    rw [hL]
    simp only [countKey]
    split <;> omega
  exact ⟨fun k => (c1_at_most_one_running_entry_per_job_id sRun1 hInv).1
            (some req2) k,
         (c1_at_most_one_running_entry_per_job_id sRun1 hInv).2.2.2 req1 rfl⟩

end Xxl
